import Mathlib

/-!
Shallow embedding of `src/lambda.py` (AWS Cost Optimization Hub summarizer).

Numeric values (`estimatedMonthlySavings`) are modelled as exact rationals
(`ℚ`) standing for the Python floats; Python dictionaries appearing as
records are modelled as association lists; Python sets of strings are
modelled as duplicate-free lists built by insert-if-absent, with order-
insensitive claims stated via membership.
-/

namespace AwsCostHub

/-- A record from the catalog's grouped-summary endpoint.  The source reads
`group`, `estimatedMonthlySavings` and `description` with `dict.get`, so each
field is optional. -/
structure Summary where
  group : Option String
  estimatedMonthlySavings : Option ℚ
  description : Option String := none
deriving Repr, DecidableEq

/-- A finding (detailed recommendation): an open-ended string-keyed record,
as the upstream API's shape is not fixed. -/
abbrev Finding := List (String × String)

/-- `finding.get(k)`: first value bound to key `k`, if any. -/
def findingGet (f : Finding) (k : String) : Option String :=
  (f.find? (fun p => p.1 == k)).map (fun p => p.2)

/-- `summary.get('group', 'Unknown')` in the source. -/
def groupOf (s : Summary) : String := s.group.getD "Unknown"

/-- `float(summary.get('estimatedMonthlySavings', 0))` in the source. -/
def savingsOf (s : Summary) : ℚ := s.estimatedMonthlySavings.getD 0

/-- One value of the `resource_summary` mapping built by
`format_recommendation_summaries`: cumulative savings and the set of
recommended action types. -/
structure Entry where
  savings : ℚ
  actions : List String
deriving Repr, DecidableEq

/-- `set.add`: append the element unless it is already present. -/
def insertAction (acc : List String) (a : String) : List String :=
  if a ∈ acc then acc else acc ++ [a]

/-- `set.update`: insert every element of `t` into `s`. -/
def setUnion (s t : List String) : List String := t.foldl insertAction s

/-- The inner loop of `format_recommendation_summaries`: the set of
`actionType` values (default `'Unknown'`) of the findings whose
`currentResourceType` equals `resource_type`. -/
def actionTypesFor (resource_type : String) (findings : List Finding) : List String :=
  findings.foldl
    (fun acc f =>
      if findingGet f "currentResourceType" = some resource_type then
        insertAction acc ((findingGet f "actionType").getD "Unknown")
      else acc)
    []

/-- Update a Python-dict-like association list in place at key `k` (keeping
its position), or append a fresh binding `(k, dflt)` at the end. -/
def alistUpdate (m : List (String × Entry)) (k : String) (upd : Entry → Entry)
    (dflt : Entry) : List (String × Entry) :=
  match m with
  | [] => [(k, dflt)]
  | (k', v) :: rest =>
      if k' = k then (k', upd v) :: rest else (k', v) :: alistUpdate rest k upd dflt

/-- One iteration of the first loop of `format_recommendation_summaries`:
fold the summary `s` into the `resource_summary` mapping `m`. -/
def aggStep (findings : List Finding) (m : List (String × Entry)) (s : Summary) :
    List (String × Entry) :=
  let resource_type := groupOf s
  let savings := savingsOf s
  let action_types := actionTypesFor resource_type findings
  alistUpdate m resource_type
    (fun e => { savings := e.savings + savings, actions := setUnion e.actions action_types })
    { savings := savings, actions := action_types }

/-- The `resource_summary` mapping of `format_recommendation_summaries`,
keyed by resource type in first-occurrence (insertion) order. -/
def resource_summary (summaries : List Summary) (findings : List Finding) :
    List (String × Entry) :=
  summaries.foldl (aggStep findings) []

/-- Dictionary lookup in the `resource_summary` mapping. -/
def lookupEntry (m : List (String × Entry)) (k : String) : Option Entry :=
  (m.find? (fun p => p.1 == k)).map (fun p => p.2)

/-- Python string `<=` (code-point lexicographic), as a Bool. -/
def strLeB (a b : String) : Bool := decide (a ≤ b)

/-- Python `sorted` on strings: a stable sort by code-point order. -/
def sortStrings (l : List String) : List String := l.mergeSort strLeB

/-- Insert a thousands separator after every third character; the input is
the reversed digit string of the integer part. -/
def chunk3 : List Char → List Char
  | c1 :: c2 :: c3 :: c4 :: rest => c1 :: c2 :: c3 :: ',' :: chunk3 (c4 :: rest)
  | l => l

/-- `{:,}` grouping of a digit string. -/
def groupThousands (s : String) : String :=
  String.mk (chunk3 s.data.reverse).reverse

/-- Round `100 * q` to the nearest integer, ties to even: the number of
cents shown by Python's `{:.2f}` format. -/
def roundHalfEvenCents (q : ℚ) : Int :=
  let x := q * 100
  let fl := ⌊x⌋
  let frac := x - fl
  if frac < 1/2 then fl
  else if 1/2 < frac then fl + 1
  else if fl % 2 = 0 then fl else fl + 1

/-- Python's `{:,.2f}` float format: two decimals, thousands separators. -/
def formatCurrency (q : ℚ) : String :=
  let cents := roundHalfEvenCents q
  let sign := if cents < 0 then "-" else ""
  let n := cents.natAbs
  let fr := n % 100
  sign ++ groupThousands (toString (n / 100)) ++ "." ++
    (if fr < 10 then "0" else "") ++ toString fr

/-- The fixed `<table>` opening and header row of the HTML table. -/
def tableHeader : String :=
  "\n    <table border='1' style='border-collapse: collapse; width: 100%; margin-bottom: 20px;'>\n        <tr style='background-color: #f2f2f2;'>\n            <th style='padding: 12px; text-align: left;'>Resource Type</th>\n            <th style='padding: 12px; text-align: left;'>Recommended Action</th>\n            <th style='padding: 12px; text-align: right;'>Estimated Monthly Savings</th>\n        </tr>"

/-- One `<tr>` of the table: resource type, comma-joined sorted actions,
formatted savings. -/
def rowHtml (resource_type : String) (e : Entry) : String :=
  "\n        <tr>\n            <td style='padding: 8px;'>" ++ resource_type ++
  "</td>\n            <td style='padding: 8px;'>" ++
  String.intercalate ", " (sortStrings e.actions) ++
  "</td>\n            <td style='padding: 8px; text-align: right;'>$" ++
  formatCurrency e.savings ++ "</td>\n        </tr>\n        "

/-- The grand-total row and the closing `</table>` tag. -/
def totalRowHtml (total : ℚ) : String :=
  "\n        <tr style='background-color: #f2f2f2; font-weight: bold;'>\n            <td style='padding: 8px;'>Total</td>\n            <td style='padding: 8px;'>-</td>\n            <td style='padding: 8px; text-align: right;'>$" ++
  formatCurrency total ++ "</td>\n        </tr>\n    </table>\n    "

/-- The sort key of `sorted(resource_summary.items(), key=..., reverse=True)`:
descending cumulative savings, stable on ties. -/
def descB (a b : String × Entry) : Bool := decide (b.2.savings ≤ a.2.savings)

/-- The row order of the rendered table. -/
def sortedRows (m : List (String × Entry)) : List (String × Entry) :=
  m.mergeSort descB

/-- `format_recommendation_summaries(summaries, findings)`: the HTML table
and the numeric grand total, accumulated row by row exactly as in the
source. -/
def format_recommendation_summaries (summaries : List Summary)
    (findings : List Finding) : String × ℚ :=
  let rows := sortedRows (resource_summary summaries findings)
  let sf := rows.foldl
    (fun (acc : String × ℚ) r => (acc.1 ++ rowHtml r.1 r.2, acc.2 + r.2.savings))
    (tableHeader, 0)
  (sf.1 ++ totalRowHtml sf.2, sf.2)

/-- The rows of the rendered table, as (resource type, entry) pairs. -/
def rowsOf (summaries : List Summary) (findings : List Finding) :
    List (String × Entry) :=
  sortedRows (resource_summary summaries findings)

/-! ## CSV serialization (lines 334-344 of the source) -/

/-- `finding.keys()`. -/
def findingKeys (f : Finding) : List String := f.map (fun p => p.1)

/-- `all_keys = set(); for finding in findings: all_keys.update(finding.keys())`,
in encounter order. -/
def collectKeys (findings : List Finding) : List String :=
  findings.foldl (fun acc f => setUnion acc (findingKeys f)) []

/-- `sorted(all_keys)`: the CSV field names. -/
def sortedKeys (findings : List Finding) : List String :=
  (collectKeys findings).mergeSort strLeB

/-- The data row `DictWriter` emits for one finding: one field per header
key, absent keys rendered as the empty field (`restval=''`). -/
def csvRow (keys : List String) (f : Finding) : List String :=
  keys.map (fun k => (findingGet f k).getD "")

/-- The logical CSV table: the header row followed by one data row per
finding. -/
def csvTable (keys : List String) (findings : List Finding) : List (List String) :=
  keys :: findings.map (csvRow keys)

/-- Minimal CSV quoting of one field, as the `excel` dialect does. -/
def csvEscape (s : String) : String :=
  if s.contains ',' || s.contains '"' || s.contains '\n' || s.contains '\r' then
    "\"" ++ s.replace "\"" "\"\"" ++ "\""
  else s

/-- Render one CSV record with the default `\r\n` terminator. -/
def csvLine (fields : List String) : String :=
  String.intercalate "," (fields.map csvEscape) ++ "\r\n"

/-- Render the whole CSV for a given field-name list. -/
def renderCsv (keys : List String) (findings : List Finding) : String :=
  String.join ((csvTable keys findings).map csvLine)

/-- The CSV text the handler writes to storage and attaches to the email. -/
def csvOfFindings (findings : List Finding) : String :=
  renderCsv (sortedKeys findings) findings

/-! ## The handler (`lambda_handler`), with its external calls modelled as
an environment of fallible services and an effect trace. -/

/-- One external call made during a run. -/
inductive Effect where
  | listSummariesCall
  | listRecommendationsCall
  | getRecommendationCall (id : String)
  | inferenceCall
  | s3PutCall (body : String)
  | emailSendCall
deriving Repr, DecidableEq

/-- The external services the handler talks to; each call either returns a
value or raises (an exception modelled as its message string). -/
structure Env where
  listSummaries : Except String (List Summary)
  listRecommendations : Except String (List String)
  getRecommendation : String → Except String Finding
  invokeModel : Except String String
  s3PutObject : Except String Unit
  sendRawEmail : Except String Unit

/-- The `{statusCode, body}` dictionary the handler returns. -/
structure HandlerResult where
  statusCode : Nat
  body : String
deriving Repr, DecidableEq

/-- The top-level `except` branch's return value. -/
def errorResult (e : String) : HandlerResult :=
  { statusCode := 500, body := "Error processing recommendations: " ++ e }

/-- The detail-fetch loop: one `get_recommendation` call per identifier, a
failing call is logged and skipped (`continue`). -/
def fetchedFindings (env : Env) (ids : List String) : List Finding :=
  ids.filterMap (fun id => (env.getRecommendation id).toOption)

/-- `lambda_handler(event, context)`: the result and the trace of external
calls made, in order. -/
def lambda_handler (env : Env) : HandlerResult × List Effect :=
  match env.listSummaries with
  | .error e => (errorResult e, [.listSummariesCall])
  | .ok summaries =>
    match env.listRecommendations with
    | .error e => (errorResult e, [.listSummariesCall, .listRecommendationsCall])
    | .ok ids =>
      let findings := fetchedFindings env ids
      let fetchTrace := Effect.listSummariesCall :: Effect.listRecommendationsCall ::
        ids.map Effect.getRecommendationCall
      if summaries.isEmpty || findings.isEmpty then
        ({ statusCode := 200, body := "No cost optimization recommendations available" },
         fetchTrace)
      else
        match env.invokeModel with
        | .error e => (errorResult e, fetchTrace ++ [.inferenceCall])
        | .ok _bedrock_summary =>
          let csv_data := csvOfFindings findings
          match env.s3PutObject with
          | .error e => (errorResult e, fetchTrace ++ [.inferenceCall, .s3PutCall csv_data])
          | .ok _ =>
            match env.sendRawEmail with
            | .error e =>
                (errorResult e,
                 fetchTrace ++ [.inferenceCall, .s3PutCall csv_data, .emailSendCall])
            | .ok _ =>
                ({ statusCode := 200,
                   body := "Successfully processed " ++ toString findings.length ++
                     " recommendations and sent summary email" },
                 fetchTrace ++ [.inferenceCall, .s3PutCall csv_data, .emailSendCall])

/-- Is this effect the inference (Bedrock) call? -/
def isInferenceCall : Effect → Bool
  | .inferenceCall => true
  | _ => false

/-- Is this effect the storage (S3 put) call? -/
def isS3PutCall : Effect → Bool
  | .s3PutCall _ => true
  | _ => false

/-- Is this effect the email-send call? -/
def isEmailSendCall : Effect → Bool
  | .emailSendCall => true
  | _ => false

/-- A run fails with message `e` at the first failing call of the executed
path: summary pagination, recommendation pagination, or (once both
collections are non-empty) the inference call, the storage write, or the
email send. -/
def FailsWith (env : Env) (e : String) : Prop :=
  env.listSummaries = .error e
  ∨ (∃ ss, env.listSummaries = .ok ss ∧ env.listRecommendations = .error e)
  ∨ (∃ ss ids, env.listSummaries = .ok ss ∧ env.listRecommendations = .ok ids ∧
      ss.isEmpty = false ∧ (fetchedFindings env ids).isEmpty = false ∧
      (env.invokeModel = .error e
       ∨ (∃ t, env.invokeModel = .ok t ∧
           (env.s3PutObject = .error e
            ∨ (env.s3PutObject = .ok () ∧ env.sendRawEmail = .error e)))))

/-- An environment is well-formed when a successful detail fetch returns a
record whose `recommendationId` is the requested identifier. -/
def WFEnv (env : Env) : Prop :=
  ∀ id d, env.getRecommendation id = .ok d → findingGet d "recommendationId" = some id

/-- Sum of the cumulative savings over the mapping's entries. -/
def entriesSum (m : List (String × Entry)) : ℚ :=
  (m.map (fun r => r.2.savings)).sum

/-- What the aggregation loop does to the mapping's value at key `g`, as a
function of the summaries whose group is `g`, in order. -/
def applyMatched (f : List Finding) (g : String) (old : Option Entry)
    (matched : List Summary) : Option Entry :=
  matched.foldl
    (fun acc s =>
      match acc with
      | none => some { savings := savingsOf s, actions := actionTypesFor g f }
      | some e => some { savings := e.savings + savingsOf s,
                         actions := setUnion e.actions (actionTypesFor g f) })
    old

/-! ## Concrete fixtures used to instantiate the claims -/

/-- Two summaries sharing the group `EBS`, with savings 10.5 and 20.25. -/
def ebsSummaries : List Summary :=
  [{ group := some "EBS", estimatedMonthlySavings := some (10.5 : ℚ), description := none },
   { group := some "EBS", estimatedMonthlySavings := some (20.25 : ℚ), description := none }]

/-- The aggregated entry those two summaries produce. -/
def ebsEntry : Entry := { savings := (30.75 : ℚ), actions := [] }

/-- One summary with group `EC2Instance`. -/
def ec2Summaries : List Summary :=
  [{ group := some "EC2Instance", estimatedMonthlySavings := some (5 : ℚ),
     description := none }]

/-- One finding with `currentResourceType = EC2Instance`, `actionType = Rightsize`. -/
def ec2Findings : List Finding :=
  [[("currentResourceType", "EC2Instance"), ("actionType", "Rightsize")]]

/-- The aggregated entry for `EC2Instance` on the fixture above. -/
def ec2Entry : Entry := { savings := (5 : ℚ), actions := ["Rightsize"] }

/-- Two summaries with distinct groups and equal savings (a tie). -/
def tieSummaries : List Summary :=
  [{ group := some "A", estimatedMonthlySavings := some (5 : ℚ), description := none },
   { group := some "B", estimatedMonthlySavings := some (5 : ℚ), description := none }]

/-- The first row of the tie fixture's mapping. -/
def rowA : String × Entry := ("A", { savings := (5 : ℚ), actions := [] })

/-- The second row of the tie fixture's mapping. -/
def rowB : String × Entry := ("B", { savings := (5 : ℚ), actions := [] })

/-- A single non-empty summary list used by the handler fixtures. -/
def oneSummary : Summary :=
  { group := some "EBS", estimatedMonthlySavings := some (1 : ℚ), description := none }

/-- An environment whose catalog returns one summary but whose only detail
fetch fails, so the findings list comes back empty. -/
def envC4 : Env :=
  { listSummaries := .ok [oneSummary],
    listRecommendations := .ok ["r1"],
    getRecommendation := fun _ => .error "detail unavailable",
    invokeModel := .ok "analysis",
    s3PutObject := .ok (),
    sendRawEmail := .ok () }

/-- An environment whose inference call raises. -/
def envC5 : Env :=
  { listSummaries := .ok [oneSummary],
    listRecommendations := .ok ["r1"],
    getRecommendation := fun id => .ok [("recommendationId", id)],
    invokeModel := .error "bedrock down",
    s3PutObject := .ok (),
    sendRawEmail := .ok () }

/-- An environment where the detail fetch fails for `r2` only. -/
def envC6 : Env :=
  { listSummaries := .ok [oneSummary],
    listRecommendations := .ok ["r1", "r2", "r3"],
    getRecommendation := fun id =>
      if id = "r2" then .error "boom" else .ok [("recommendationId", id)],
    invokeModel := .ok "analysis",
    s3PutObject := .ok (),
    sendRawEmail := .ok () }

/-! ## Lemmas: the grand total -/

theorem entriesSum_nil : entriesSum [] = 0 := rfl

theorem entriesSum_cons (r : String × Entry) (m : List (String × Entry)) :
    entriesSum (r :: m) = r.2.savings + entriesSum m := by
  simp [entriesSum]

theorem entriesSum_alistUpdate (m : List (String × Entry)) (k : String)
    (upd : Entry → Entry) (dflt : Entry) (q : ℚ)
    (hupd : ∀ e, (upd e).savings = e.savings + q) (hd : dflt.savings = q) :
    entriesSum (alistUpdate m k upd dflt) = entriesSum m + q := by
  induction m with
  | nil => simp [alistUpdate, entriesSum, hd]
  | cons r rest ih =>
      obtain ⟨k', v⟩ := r
      by_cases h : k' = k
      · simp only [alistUpdate, if_pos h]
        rw [entriesSum_cons, entriesSum_cons, hupd]
        ring
      · simp only [alistUpdate, if_neg h]
        rw [entriesSum_cons, entriesSum_cons, ih]
        ring

theorem entriesSum_aggStep (f : List Finding) (m : List (String × Entry)) (s : Summary) :
    entriesSum (aggStep f m s) = entriesSum m + savingsOf s := by
  unfold aggStep
  exact entriesSum_alistUpdate _ _ _ _ _ (fun e => rfl) rfl

theorem entriesSum_foldl_agg (f : List Finding) :
    ∀ (l : List Summary) (m : List (String × Entry)),
      entriesSum (l.foldl (aggStep f) m) = entriesSum m + (l.map savingsOf).sum
  | [], m => by simp
  | s :: l, m => by
      rw [List.foldl_cons, entriesSum_foldl_agg f l (aggStep f m s), entriesSum_aggStep]
      simp [add_assoc]

theorem entriesSum_resource_summary (s : List Summary) (f : List Finding) :
    entriesSum (resource_summary s f) = (s.map savingsOf).sum := by
  unfold resource_summary
  rw [entriesSum_foldl_agg, entriesSum_nil, zero_add]

theorem entriesSum_perm {m m' : List (String × Entry)} (h : m.Perm m') :
    entriesSum m = entriesSum m' := by
  unfold entriesSum
  exact (h.map (fun r => r.2.savings)).sum_eq

theorem entriesSum_sortedRows (m : List (String × Entry)) :
    entriesSum (sortedRows m) = entriesSum m :=
  entriesSum_perm (List.mergeSort_perm m descB)

theorem string_join_cons (a : String) (l : List String) :
    String.join (a :: l) = a ++ String.join l := by
  apply String.ext
  simp [String.join_eq]

theorem format_foldl (rows : List (String × Entry)) :
    ∀ (s0 : String) (q0 : ℚ),
      rows.foldl (fun (acc : String × ℚ) r => (acc.1 ++ rowHtml r.1 r.2, acc.2 + r.2.savings))
        (s0, q0)
      = (s0 ++ String.join (rows.map (fun r => rowHtml r.1 r.2)), q0 + entriesSum rows) := by
  induction rows with
  | nil =>
      intro s0 q0
      simp [entriesSum, String.join, String.append_empty]
  | cons r rs ih =>
      intro s0 q0
      rw [List.foldl_cons, ih, List.map_cons, string_join_cons, entriesSum_cons,
        String.append_assoc]
      ring_nf

/-- What `format_recommendation_summaries` literally produces: the fixed
header, the rows in sorted order, the grand-total row; the numeric total is
the sum of the (sorted) entries' cumulative savings. -/
theorem format_spec (s : List Summary) (f : List Finding) :
    format_recommendation_summaries s f
      = (tableHeader ++ String.join ((rowsOf s f).map (fun r => rowHtml r.1 r.2)) ++
           totalRowHtml (entriesSum (resource_summary s f)),
         entriesSum (resource_summary s f)) := by
  unfold format_recommendation_summaries rowsOf
  simp only [format_foldl, zero_add, entriesSum_sortedRows]

/-- The returned numeric total is the sum of all summaries' savings. -/
theorem total_eq_sum (s : List Summary) (f : List Finding) :
    (format_recommendation_summaries s f).2 = (s.map savingsOf).sum := by
  rw [format_spec, entriesSum_resource_summary]

/-! ## Lemmas: set operations and the aggregation mapping -/

theorem mem_insertAction (acc : List String) (b a : String) :
    a ∈ insertAction acc b ↔ a ∈ acc ∨ a = b := by
  by_cases h : b ∈ acc
  · simp only [insertAction, if_pos h]
    exact ⟨Or.inl, fun hh => hh.elim id (fun he => he ▸ h)⟩
  · simp [insertAction, if_neg h]

theorem nodup_insertAction (acc : List String) (b : String) (h : acc.Nodup) :
    (insertAction acc b).Nodup := by
  by_cases hb : b ∈ acc
  · simpa [insertAction, if_pos hb] using h
  · simp [insertAction, if_neg hb, List.nodup_append, h, hb]

theorem mem_setUnion (t : List String) :
    ∀ (s : List String) (a : String), a ∈ setUnion s t ↔ a ∈ s ∨ a ∈ t := by
  induction t with
  | nil => simp [setUnion]
  | cons b t ih =>
      intro s a
      show a ∈ setUnion (insertAction s b) t ↔ _
      rw [ih, mem_insertAction]
      simp only [List.mem_cons]
      tauto

theorem nodup_setUnion (t : List String) :
    ∀ (s : List String), s.Nodup → (setUnion s t).Nodup := by
  induction t with
  | nil => intro s h; exact h
  | cons b t ih =>
      intro s h
      exact ih (insertAction s b) (nodup_insertAction s b h)

theorem setUnion_eq_of_subset (t : List String) :
    ∀ (s : List String), (∀ a ∈ t, a ∈ s) → setUnion s t = s := by
  induction t with
  | nil => intro s _; rfl
  | cons b t ih =>
      intro s h
      show setUnion (insertAction s b) t = s
      have hb : b ∈ s := h b (List.mem_cons_self b t)
      rw [show insertAction s b = s from if_pos hb]
      exact ih s (fun a ha => h a (List.mem_cons_of_mem b ha))

theorem setUnion_absorb (s t : List String) : setUnion (setUnion s t) t = setUnion s t :=
  setUnion_eq_of_subset t _ (fun a ha => (mem_setUnion t s a).mpr (Or.inr ha))

theorem mem_actionTypesFor (g : String) (f : List Finding) (a : String) :
    a ∈ actionTypesFor g f
      ↔ ∃ fi ∈ f, findingGet fi "currentResourceType" = some g ∧
          (findingGet fi "actionType").getD "Unknown" = a := by
  suffices h : ∀ (l : List Finding) (acc : List String),
      a ∈ l.foldl
        (fun acc fi =>
          if findingGet fi "currentResourceType" = some g then
            insertAction acc ((findingGet fi "actionType").getD "Unknown")
          else acc) acc
      ↔ a ∈ acc ∨ ∃ fi ∈ l, findingGet fi "currentResourceType" = some g ∧
          (findingGet fi "actionType").getD "Unknown" = a by
    rw [actionTypesFor, h f []]
    simp
  intro l
  induction l with
  | nil => simp
  | cons fi l ih =>
      intro acc
      rw [List.foldl_cons]
      by_cases hc : findingGet fi "currentResourceType" = some g
      · rw [if_pos hc, ih, mem_insertAction]
        constructor
        · rintro ((h1 | h2) | ⟨x, hx, hcs⟩)
          · exact Or.inl h1
          · exact Or.inr ⟨fi, List.mem_cons_self fi l, hc, h2.symm⟩
          · exact Or.inr ⟨x, List.mem_cons_of_mem fi hx, hcs⟩
        · rintro (h1 | ⟨x, hx, hcs, hav⟩)
          · exact Or.inl (Or.inl h1)
          · rcases List.mem_cons.mp hx with rfl | hx'
            · exact Or.inl (Or.inr hav.symm)
            · exact Or.inr ⟨x, hx', hcs, hav⟩
      · rw [if_neg hc, ih]
        constructor
        · rintro (h1 | ⟨x, hx, hcs⟩)
          · exact Or.inl h1
          · exact Or.inr ⟨x, List.mem_cons_of_mem fi hx, hcs⟩
        · rintro (h1 | ⟨x, hx, hcs, hav⟩)
          · exact Or.inl h1
          · rcases List.mem_cons.mp hx with rfl | hx'
            · exact absurd hcs hc
            · exact Or.inr ⟨x, hx', hcs, hav⟩

theorem lookupEntry_cons (k' : String) (v : Entry) (rest : List (String × Entry))
    (k : String) :
    lookupEntry ((k', v) :: rest) k = if k' = k then some v else lookupEntry rest k := by
  by_cases h : k' = k
  · rw [if_pos h]
    unfold lookupEntry
    rw [List.find?_cons_of_pos _ (by simpa using h)]
    rfl
  · rw [if_neg h]
    unfold lookupEntry
    rw [List.find?_cons_of_neg _ (by simpa using h)]

theorem lookupEntry_alistUpdate_self (m : List (String × Entry)) (k : String)
    (upd : Entry → Entry) (dflt : Entry) :
    lookupEntry (alistUpdate m k upd dflt) k
      = some (match lookupEntry m k with | some e => upd e | none => dflt) := by
  induction m with
  | nil =>
      rw [show alistUpdate [] k upd dflt = [(k, dflt)] from rfl, lookupEntry_cons, if_pos rfl]
      rfl
  | cons r rest ih =>
      obtain ⟨k', v⟩ := r
      have step : alistUpdate ((k', v) :: rest) k upd dflt
          = if k' = k then (k', upd v) :: rest
            else (k', v) :: alistUpdate rest k upd dflt := rfl
      by_cases h : k' = k
      · subst h
        simp [step, lookupEntry_cons]
      · rw [step, if_neg h, lookupEntry_cons, if_neg h, ih, lookupEntry_cons, if_neg h]

theorem lookupEntry_alistUpdate_ne (m : List (String × Entry)) (k g : String)
    (upd : Entry → Entry) (dflt : Entry) (h : g ≠ k) :
    lookupEntry (alistUpdate m k upd dflt) g = lookupEntry m g := by
  induction m with
  | nil =>
      rw [show alistUpdate [] k upd dflt = [(k, dflt)] from rfl, lookupEntry_cons,
        if_neg (fun hh => h hh.symm)]
  | cons r rest ih =>
      obtain ⟨k', v⟩ := r
      have step : alistUpdate ((k', v) :: rest) k upd dflt
          = if k' = k then (k', upd v) :: rest
            else (k', v) :: alistUpdate rest k upd dflt := rfl
      by_cases hk : k' = k
      · rw [step, if_pos hk, lookupEntry_cons, lookupEntry_cons]
        have hne : k' ≠ g := fun hg => h (hg.symm.trans hk)
        rw [if_neg hne, if_neg hne]
      · rw [step, if_neg hk, lookupEntry_cons, lookupEntry_cons, ih]

theorem lookupEntry_foldl_agg (f : List Finding) :
    ∀ (l : List Summary) (m : List (String × Entry)) (g : String),
      lookupEntry (l.foldl (aggStep f) m) g
        = applyMatched f g (lookupEntry m g) (l.filter (fun x => groupOf x == g)) := by
  intro l
  induction l with
  | nil => intro m g; rfl
  | cons s l ih =>
      intro m g
      rw [List.foldl_cons, ih]
      by_cases h : groupOf s = g
      · rw [List.filter_cons_of_pos (by simpa using h)]
        have hl : lookupEntry (aggStep f m s) g
            = some (match lookupEntry m g with
                    | some e => { savings := e.savings + savingsOf s,
                                  actions := setUnion e.actions (actionTypesFor g f) }
                    | none => { savings := savingsOf s, actions := actionTypesFor g f }) := by
          unfold aggStep
          rw [h, lookupEntry_alistUpdate_self]
        rw [hl]
        show applyMatched f g _ _ = applyMatched f g _ (s :: _)
        unfold applyMatched
        rw [List.foldl_cons]
        cases lookupEntry m g <;> rfl
      · rw [List.filter_cons_of_neg (by simpa using h)]
        have hl : lookupEntry (aggStep f m s) g = lookupEntry m g := by
          unfold aggStep
          exact lookupEntry_alistUpdate_ne _ _ _ _ _ (fun hg => h hg.symm)
        rw [hl]

theorem applyMatched_some (f : List Finding) (g : String) :
    ∀ (matched : List Summary) (e : Entry),
      applyMatched f g (some e) matched
        = some { savings := e.savings + (matched.map savingsOf).sum,
                 actions := if matched.isEmpty then e.actions
                            else setUnion e.actions (actionTypesFor g f) } := by
  intro matched
  induction matched with
  | nil => intro e; simp [applyMatched]
  | cons x xs ih =>
      intro e
      show applyMatched f g (some _) xs = _
      rw [ih]
      rw [setUnion_absorb]
      simp only [List.isEmpty_cons, List.map_cons, List.sum_cons, ite_self]
      rw [if_neg (by simp)]
      congr 1
      congr 1
      ring

theorem applyMatched_none (f : List Finding) (g : String) (matched : List Summary)
    (h : matched ≠ []) :
    applyMatched f g none matched
      = some { savings := (matched.map savingsOf).sum, actions := actionTypesFor g f } := by
  cases matched with
  | nil => exact absurd rfl h
  | cons x xs =>
      show applyMatched f g (some _) xs = _
      rw [applyMatched_some]
      rw [setUnion_eq_of_subset _ _ (fun a ha => ha), ite_self]
      simp

theorem lookupEntry_resource_summary (s : List Summary) (f : List Finding) (g : String) :
    lookupEntry (resource_summary s f) g
      = applyMatched f g none (s.filter (fun x => groupOf x == g)) := by
  unfold resource_summary
  rw [lookupEntry_foldl_agg]
  rfl

/-- Characterization of an existing entry of the mapping: its savings are
the sum over the matching summaries, its actions are the action types of
the matching findings. -/
theorem lookupEntry_spec (s : List Summary) (f : List Finding) (g : String) (e : Entry)
    (h : lookupEntry (resource_summary s f) g = some e) :
    e.savings = ((s.filter (fun x => groupOf x == g)).map savingsOf).sum ∧
      e.actions = actionTypesFor g f := by
  rw [lookupEntry_resource_summary] at h
  rcases hm : s.filter (fun x => groupOf x == g) with _ | ⟨x, xs⟩
  · rw [hm] at h
    exact absurd h (by simp [applyMatched])
  · rw [hm] at h
    rw [applyMatched_none f g _ (by simp)] at h
    cases h
    exact ⟨rfl, rfl⟩

/-! ## Lemmas: the row sort -/

theorem descB_trans : ∀ a b c : String × Entry, descB a b → descB b c → descB a c := by
  intro a b c hab hbc
  simp only [descB, decide_eq_true_eq] at hab hbc ⊢
  exact le_trans hbc hab

theorem descB_total : ∀ a b : String × Entry, descB a b || descB b a := by
  intro a b
  simp only [descB, Bool.or_eq_true, decide_eq_true_eq]
  exact le_total b.2.savings a.2.savings

theorem sortedRows_pairwise (m : List (String × Entry)) :
    (sortedRows m).Pairwise (fun a b => b.2.savings ≤ a.2.savings) := by
  have h := List.sorted_mergeSort descB_trans descB_total m
  exact h.imp (fun hab => by simpa [descB] using hab)

theorem sortedRows_perm (m : List (String × Entry)) : (sortedRows m).Perm m :=
  List.mergeSort_perm m descB

theorem sortedRows_stable (m : List (String × Entry)) (a b : String × Entry)
    (hs : a.2.savings = b.2.savings) (h : List.Sublist [a, b] m) :
    List.Sublist [a, b] (sortedRows m) :=
  List.pair_sublist_mergeSort descB_trans descB_total
    (by simp [descB, hs.symm.le]) h

/-! ## Lemmas: CSV keys -/

theorem strLeB_trans : ∀ a b c : String, strLeB a b → strLeB b c → strLeB a c := by
  intro a b c hab hbc
  simp only [strLeB, decide_eq_true_eq] at hab hbc ⊢
  exact le_trans hab hbc

theorem strLeB_total : ∀ a b : String, strLeB a b || strLeB b a := by
  intro a b
  simp only [strLeB, Bool.or_eq_true, decide_eq_true_eq]
  exact le_total a b

theorem sortStrings_pairwise (l : List String) :
    (sortStrings l).Pairwise (fun a b => a ≤ b) := by
  have h := List.sorted_mergeSort strLeB_trans strLeB_total l
  exact h.imp (fun hab => by simpa [strLeB] using hab)

theorem mem_sortStrings (l : List String) (a : String) : a ∈ sortStrings l ↔ a ∈ l :=
  List.mem_mergeSort

theorem mem_collectKeys (findings : List Finding) (k : String) :
    k ∈ collectKeys findings ↔ ∃ f ∈ findings, k ∈ findingKeys f := by
  suffices h : ∀ (l : List Finding) (acc : List String),
      k ∈ l.foldl (fun acc f => setUnion acc (findingKeys f)) acc
        ↔ k ∈ acc ∨ ∃ f ∈ l, k ∈ findingKeys f by
    rw [collectKeys, h findings []]
    simp
  intro l
  induction l with
  | nil => simp
  | cons f l ih =>
      intro acc
      rw [List.foldl_cons, ih, mem_setUnion]
      constructor
      · rintro ((h1 | h2) | ⟨x, hx, hk⟩)
        · exact Or.inl h1
        · exact Or.inr ⟨f, List.mem_cons_self f l, h2⟩
        · exact Or.inr ⟨x, List.mem_cons_of_mem f hx, hk⟩
      · rintro (h1 | ⟨x, hx, hk⟩)
        · exact Or.inl (Or.inl h1)
        · rcases List.mem_cons.mp hx with rfl | hx'
          · exact Or.inl (Or.inr hk)
          · exact Or.inr ⟨x, hx', hk⟩

theorem nodup_collectKeys (findings : List Finding) : (collectKeys findings).Nodup := by
  suffices h : ∀ (l : List Finding) (acc : List String), acc.Nodup →
      (l.foldl (fun acc f => setUnion acc (findingKeys f)) acc).Nodup from
    h findings [] List.nodup_nil
  intro l
  induction l with
  | nil => intro acc h; exact h
  | cons f l ih =>
      intro acc h
      exact ih _ (nodup_setUnion _ _ h)

theorem sortedKeys_pairwise (findings : List Finding) :
    (sortedKeys findings).Pairwise (fun a b => a ≤ b) := by
  have h := List.sorted_mergeSort strLeB_trans strLeB_total (collectKeys findings)
  exact h.imp (fun hab => by simpa [strLeB] using hab)

theorem sortedKeys_nodup (findings : List Finding) : (sortedKeys findings).Nodup :=
  (List.mergeSort_perm (collectKeys findings) strLeB).nodup_iff.mpr
    (nodup_collectKeys findings)

theorem mem_sortedKeys (findings : List Finding) (k : String) :
    k ∈ sortedKeys findings ↔ ∃ f ∈ findings, k ∈ findingKeys f := by
  rw [sortedKeys, List.mem_mergeSort, mem_collectKeys]

theorem mergeSort_of_perm_keys (findings : List Finding) (ks : List String)
    (h : ks.Perm (collectKeys findings)) :
    ks.mergeSort strLeB = sortedKeys findings := by
  haveI : IsAntisymm String (fun a b => a ≤ b) := ⟨fun _ _ hab hba => le_antisymm hab hba⟩
  apply List.eq_of_perm_of_sorted (r := fun a b : String => a ≤ b)
  · exact (List.mergeSort_perm ks strLeB).trans
      (h.trans (List.mergeSort_perm (collectKeys findings) strLeB).symm)
  · exact (List.sorted_mergeSort strLeB_trans strLeB_total ks).imp
      (fun hab => by simpa [strLeB] using hab)
  · exact sortedKeys_pairwise findings

/-! ## Lemmas: the handler trace -/

theorem countP_fetchTrace (p : Effect → Bool) (ids : List String)
    (h1 : p .listSummariesCall = false) (h2 : p .listRecommendationsCall = false)
    (h3 : ∀ id, p (.getRecommendationCall id) = false) :
    (Effect.listSummariesCall :: Effect.listRecommendationsCall ::
      ids.map Effect.getRecommendationCall).countP p = 0 := by
  rw [List.countP_cons_of_neg _ _ (by simp [h1]),
    List.countP_cons_of_neg _ _ (by simp [h2])]
  rw [List.countP_eq_zero]
  intro a ha
  rcases List.mem_map.mp ha with ⟨id, _, rfl⟩
  simp [h3]

theorem countP_getRec_inf (ids : List String) :
    ids.countP (isInferenceCall ∘ Effect.getRecommendationCall) = 0 := by
  rw [List.countP_eq_zero]
  intro a _
  simp [Function.comp_apply, isInferenceCall]

theorem countP_getRec_s3 (ids : List String) :
    ids.countP (isS3PutCall ∘ Effect.getRecommendationCall) = 0 := by
  rw [List.countP_eq_zero]
  intro a _
  simp [Function.comp_apply, isS3PutCall]

theorem countP_getRec_email (ids : List String) :
    ids.countP (isEmailSendCall ∘ Effect.getRecommendationCall) = 0 := by
  rw [List.countP_eq_zero]
  intro a _
  simp [Function.comp_apply, isEmailSendCall]

theorem handler_noRetry (env : Env) :
    (lambda_handler env).2.countP isInferenceCall ≤ 1 ∧
    (lambda_handler env).2.countP isS3PutCall ≤ 1 ∧
    (lambda_handler env).2.countP isEmailSendCall ≤ 1 := by
  have hInf : ∀ ids : List String,
      (Effect.listSummariesCall :: Effect.listRecommendationsCall ::
        ids.map Effect.getRecommendationCall).countP isInferenceCall = 0 :=
    fun ids => countP_fetchTrace _ ids rfl rfl (fun _ => rfl)
  have hS3 : ∀ ids : List String,
      (Effect.listSummariesCall :: Effect.listRecommendationsCall ::
        ids.map Effect.getRecommendationCall).countP isS3PutCall = 0 :=
    fun ids => countP_fetchTrace _ ids rfl rfl (fun _ => rfl)
  have hEm : ∀ ids : List String,
      (Effect.listSummariesCall :: Effect.listRecommendationsCall ::
        ids.map Effect.getRecommendationCall).countP isEmailSendCall = 0 :=
    fun ids => countP_fetchTrace _ ids rfl rfl (fun _ => rfl)
  unfold lambda_handler
  rcases h1 : env.listSummaries with e | ss
  · simp [List.countP_cons, List.countP_nil, isInferenceCall, isS3PutCall, isEmailSendCall]
  · rcases h2 : env.listRecommendations with e | ids
    · simp [List.countP_cons, List.countP_nil, isInferenceCall, isS3PutCall, isEmailSendCall]
    · rcases h3 : (ss.isEmpty || (fetchedFindings env ids).isEmpty) with _ | _
      · rcases h4 : env.invokeModel with e | t
        · simp [h3, List.countP_append, List.countP_cons, List.countP_nil, Function.comp,
            isInferenceCall, isS3PutCall, isEmailSendCall, countP_getRec_inf,
            countP_getRec_s3, countP_getRec_email]
        · rcases h5 : env.s3PutObject with e | u
          · simp [h3, List.countP_append, List.countP_cons, List.countP_nil, Function.comp,
              isInferenceCall, isS3PutCall, isEmailSendCall, countP_getRec_inf,
              countP_getRec_s3, countP_getRec_email]
          · rcases h6 : env.sendRawEmail with e | v
            · simp [h3, List.countP_append, List.countP_cons, List.countP_nil, Function.comp,
                isInferenceCall, isS3PutCall, isEmailSendCall, countP_getRec_inf,
                countP_getRec_s3, countP_getRec_email]
            · simp [h3, List.countP_append, List.countP_cons, List.countP_nil, Function.comp,
                isInferenceCall, isS3PutCall, isEmailSendCall, countP_getRec_inf,
                countP_getRec_s3, countP_getRec_email]
      · simp [h3, List.countP_cons, Function.comp, isInferenceCall, isS3PutCall,
          isEmailSendCall, countP_getRec_inf, countP_getRec_s3, countP_getRec_email]

/-! ## The claims -/

/-- C1: the numeric total returned by `format_recommendation_summaries`
equals the sum of the per-resource-type cumulative savings, which equals
the sum over all input summaries of their `estimatedMonthlySavings` values
(0 when missing); and the returned HTML ends with the grand-total row
rendered from that same total. -/
theorem c1_total_consistency (summaries : List Summary) (findings : List Finding) :
    (format_recommendation_summaries summaries findings).2
        = entriesSum (resource_summary summaries findings)
    ∧ entriesSum (resource_summary summaries findings) = (summaries.map savingsOf).sum
    ∧ ∃ pre, (format_recommendation_summaries summaries findings).1
        = pre ++ totalRowHtml (format_recommendation_summaries summaries findings).2 := by
  refine ⟨?_, entriesSum_resource_summary summaries findings, ?_⟩
  · rw [format_spec]
  · rw [format_spec]
    exact ⟨_, rfl⟩

/-- C3: the rows of the rendered HTML table are a permutation of the
aggregation mapping, in non-increasing order of cumulative savings, with
ties kept in the mapping's original iteration order (stable sort); and the
returned HTML is exactly the header, those rows in order, and the total
row. -/
theorem c3_row_order (summaries : List Summary) (findings : List Finding) :
    (rowsOf summaries findings).Perm (resource_summary summaries findings)
    ∧ (rowsOf summaries findings).Pairwise (fun a b => b.2.savings ≤ a.2.savings)
    ∧ (∀ a b : String × Entry, a.2.savings = b.2.savings →
        List.Sublist [a, b] (resource_summary summaries findings) →
        List.Sublist [a, b] (rowsOf summaries findings))
    ∧ (format_recommendation_summaries summaries findings).1
        = tableHeader ++
          String.join ((rowsOf summaries findings).map (fun r => rowHtml r.1 r.2)) ++
          totalRowHtml (format_recommendation_summaries summaries findings).2 := by
  refine ⟨sortedRows_perm _, sortedRows_pairwise _,
    fun a b hs h => sortedRows_stable _ a b hs h, ?_⟩
  rw [format_spec]

/-- Witness for C3: two resource types with equal savings keep their
original order in the rendered rows. -/
theorem c3_row_order_witness :
    rowA.2.savings = rowB.2.savings
    ∧ List.Sublist [rowA, rowB] (resource_summary tieSummaries [])
    ∧ List.Sublist [rowA, rowB] (rowsOf tieSummaries []) := by
  have hmap : resource_summary tieSummaries [] = [rowA, rowB] := by decide
  have hsub : List.Sublist [rowA, rowB] (resource_summary tieSummaries []) := by
    rw [hmap]
  exact ⟨rfl, hsub, (c3_row_order tieSummaries []).2.2.1 rowA rowB rfl hsub⟩

/-- Evaluation of the aggregation on the `EBS` fixture. -/
theorem ebs_lookup_eval :
    lookupEntry (resource_summary ebsSummaries []) "EBS" = some ebsEntry := by
  norm_num [ebsSummaries, ebsEntry, resource_summary, aggStep, alistUpdate, lookupEntry,
    actionTypesFor, setUnion, savingsOf, groupOf, List.find?]

/-- C7: savings of summaries sharing a group accumulate by addition; in
particular two `EBS` summaries with savings 10.5 and 20.25 aggregate to
exactly 30.75. -/
theorem c7_savings_accumulate :
    lookupEntry (resource_summary ebsSummaries []) "EBS" = some ebsEntry
    ∧ ebsEntry.savings = (30.75 : ℚ)
    ∧ (∀ (summaries : List Summary) (findings : List Finding) (g : String) (e : Entry),
        lookupEntry (resource_summary summaries findings) g = some e →
        e.savings = ((summaries.filter (fun x => groupOf x == g)).map savingsOf).sum) := by
  refine ⟨ebs_lookup_eval, rfl, ?_⟩
  intro s f g e h
  exact (lookupEntry_spec s f g e h).1

/-- Witness for C7: the general accumulation law applied to the concrete
`EBS` fixture. -/
theorem c7_savings_accumulate_witness :
    lookupEntry (resource_summary ebsSummaries []) "EBS" = some ebsEntry
    ∧ ebsEntry.savings
        = ((ebsSummaries.filter (fun x => groupOf x == "EBS")).map savingsOf).sum := by
  exact ⟨ebs_lookup_eval,
    c7_savings_accumulate.2.2 ebsSummaries [] "EBS" ebsEntry ebs_lookup_eval⟩

/-- C8: an aggregated entry's action set holds exactly the distinct
`actionType` values of the findings whose `currentResourceType` equals the
entry's resource type; the table row renders them as a comma-joined
alphabetically sorted list. -/
theorem c8_actions_join :
    (∀ (summaries : List Summary) (findings : List Finding) (g : String) (e : Entry),
        lookupEntry (resource_summary summaries findings) g = some e →
        ∀ a, a ∈ e.actions ↔ ∃ fi ∈ findings,
          findingGet fi "currentResourceType" = some g ∧
          (findingGet fi "actionType").getD "Unknown" = a)
    ∧ (∀ (rt : String) (e : Entry), ∃ pre post,
        rowHtml rt e = pre ++ String.intercalate ", " (sortStrings e.actions) ++ post
        ∧ (sortStrings e.actions).Pairwise (fun a b => a ≤ b)
        ∧ (∀ a, a ∈ sortStrings e.actions ↔ a ∈ e.actions)) := by
  constructor
  · intro s f g e h a
    rw [(lookupEntry_spec s f g e h).2]
    exact mem_actionTypesFor g f a
  · intro rt e
    refine ⟨"\n        <tr>\n            <td style='padding: 8px;'>" ++ rt ++
        "</td>\n            <td style='padding: 8px;'>",
      "</td>\n            <td style='padding: 8px; text-align: right;'>$" ++
        formatCurrency e.savings ++ "</td>\n        </tr>\n        ",
      ?_, sortStrings_pairwise _, fun a => mem_sortStrings _ a⟩
    simp [rowHtml, String.append_assoc]

/-- Witness for C8: the `EC2Instance`-`Rightsize` fixture; the aggregated
action set for `EC2Instance` contains `Rightsize`. -/
theorem c8_actions_join_witness :
    lookupEntry (resource_summary ec2Summaries ec2Findings) "EC2Instance" = some ec2Entry
    ∧ "Rightsize" ∈ ec2Entry.actions := by
  have h : lookupEntry (resource_summary ec2Summaries ec2Findings) "EC2Instance"
      = some ec2Entry := by decide
  refine ⟨h, ?_⟩
  refine ((c8_actions_join.1 ec2Summaries ec2Findings "EC2Instance" ec2Entry h)
    "Rightsize").mpr ?_
  exact ⟨[("currentResourceType", "EC2Instance"), ("actionType", "Rightsize")],
    by simp [ec2Findings], by decide, by decide⟩

/-- C9: CSV serialization is deterministic: equal findings lists give equal
output, and whatever order the key set is enumerated in, sorting it yields
the same field order, hence byte-identical output. -/
theorem c9_csv_deterministic :
    (∀ f1 f2 : List Finding, f1 = f2 → csvOfFindings f1 = csvOfFindings f2)
    ∧ (∀ (findings : List Finding) (ks : List String), ks.Perm (collectKeys findings) →
        renderCsv (ks.mergeSort strLeB) findings = csvOfFindings findings) := by
  refine ⟨fun f1 f2 h => by rw [h], fun findings ks h => ?_⟩
  rw [mergeSort_of_perm_keys findings ks h, csvOfFindings]

/-- Witness for C9: a reordered key enumeration yields the same CSV. -/
theorem c9_csv_deterministic_witness :
    (["b", "a"] : List String).Perm (collectKeys [[("a", "1"), ("b", "2")]])
    ∧ renderCsv ((["b", "a"] : List String).mergeSort strLeB) [[("a", "1"), ("b", "2")]]
        = csvOfFindings [[("a", "1"), ("b", "2")]] := by
  have h : (["b", "a"] : List String).Perm (collectKeys [[("a", "1"), ("b", "2")]]) := by
    have hc : collectKeys [[("a", "1"), ("b", "2")]] = ["a", "b"] := rfl
    rw [hc]
    exact List.Perm.swap "a" "b" []
  exact ⟨h, c9_csv_deterministic.2 [[("a", "1"), ("b", "2")]] ["b", "a"] h⟩

/-- C10: the numeric total depends only on the summaries; a finding whose
`currentResourceType` matches no summary's group changes neither the table
nor the total. -/
theorem c10_total_findings_independent :
    (∀ (summaries : List Summary) (f1 f2 : List Finding),
        (format_recommendation_summaries summaries f1).2
          = (format_recommendation_summaries summaries f2).2)
    ∧ (∀ (summaries : List Summary) (f : List Finding) (extra : Finding),
        (∀ s ∈ summaries, findingGet extra "currentResourceType" ≠ some (groupOf s)) →
        format_recommendation_summaries summaries (f ++ [extra])
          = format_recommendation_summaries summaries f) := by
  constructor
  · intro s f1 f2
    rw [total_eq_sum, total_eq_sum]
  · intro s f extra h
    have hAT : ∀ x ∈ s, actionTypesFor (groupOf x) (f ++ [extra])
        = actionTypesFor (groupOf x) f := by
      intro x hx
      unfold actionTypesFor
      rw [List.foldl_append, List.foldl_cons, List.foldl_nil, if_neg (h x hx)]
    have hrs : resource_summary s (f ++ [extra]) = resource_summary s f := by
      unfold resource_summary
      apply List.foldl_ext
      intro m x hx
      simp only [aggStep, hAT x hx]
    unfold format_recommendation_summaries
    rw [hrs]

/-- Witness for C10: appending a finding for an unmatched resource type
leaves the output unchanged. -/
theorem c10_total_findings_independent_witness :
    (∀ s ∈ ([oneSummary] : List Summary),
        findingGet [("currentResourceType", "EC2Instance")] "currentResourceType"
          ≠ some (groupOf s))
    ∧ format_recommendation_summaries [oneSummary]
        ([] ++ [[("currentResourceType", "EC2Instance")]])
        = format_recommendation_summaries [oneSummary] [] := by
  have h : ∀ s ∈ ([oneSummary] : List Summary),
      findingGet [("currentResourceType", "EC2Instance")] "currentResourceType"
        ≠ some (groupOf s) := by
    intro s hs
    rcases List.mem_singleton.mp hs with rfl
    decide
  exact ⟨h, c10_total_findings_independent.2 [oneSummary] [] _ h⟩

/-- C2: for a non-empty findings list, the CSV header is the alphabetically
sorted, duplicate-free union of all keys across all findings, followed by
exactly one data row per finding; absent keys render as the empty field, so
every data row has exactly as many fields as the header. -/
theorem c2_csv_shape (findings : List Finding) (hne : findings ≠ []) :
    (sortedKeys findings).Pairwise (fun a b => a ≤ b)
    ∧ (sortedKeys findings).Nodup
    ∧ (∀ k, k ∈ sortedKeys findings ↔ ∃ f ∈ findings, k ∈ findingKeys f)
    ∧ csvTable (sortedKeys findings) findings
        = sortedKeys findings :: findings.map (csvRow (sortedKeys findings))
    ∧ (∀ f ∈ findings,
        (csvRow (sortedKeys findings) f).length = (sortedKeys findings).length)
    ∧ (∀ f ∈ findings, ∀ i (hi : i < (sortedKeys findings).length),
        findingGet f ((sortedKeys findings)[i]) = none →
        (csvRow (sortedKeys findings) f)[i]? = some "") := by
  refine ⟨sortedKeys_pairwise findings, sortedKeys_nodup findings,
    mem_sortedKeys findings, rfl, ?_, ?_⟩
  · intro f _
    simp [csvRow]
  · intro f _ i hi hnone
    rw [csvRow, List.getElem?_map, List.getElem?_eq_getElem hi]
    simp [hnone]

/-- Witness for C2: a heterogeneous two-finding fixture. -/
theorem c2_csv_shape_witness :
    (([[("b", "2")], [("a", "1"), ("b", "3")]] : List Finding) ≠ [])
    ∧ (sortedKeys [[("b", "2")], [("a", "1"), ("b", "3")]]).Nodup
    ∧ (∀ f ∈ ([[("b", "2")], [("a", "1"), ("b", "3")]] : List Finding),
        (csvRow (sortedKeys [[("b", "2")], [("a", "1"), ("b", "3")]]) f).length
          = (sortedKeys [[("b", "2")], [("a", "1"), ("b", "3")]]).length) := by
  have hne : ([[("b", "2")], [("a", "1"), ("b", "3")]] : List Finding) ≠ [] := by simp
  have h := c2_csv_shape [[("b", "2")], [("a", "1"), ("b", "3")]] hne
  exact ⟨hne, h.2.1, h.2.2.2.2.1⟩

/-- C4: when either list is empty (including when exactly one is non-empty)
the handler returns 200 with the no-recommendations body, and its trace
holds no inference call, no storage write and no email send. -/
theorem c4_empty_short_circuit (env : Env) (summaries : List Summary) (ids : List String)
    (h1 : env.listSummaries = .ok summaries)
    (h2 : env.listRecommendations = .ok ids)
    (h3 : summaries = [] ∨ fetchedFindings env ids = []) :
    (lambda_handler env).1
        = { statusCode := 200, body := "No cost optimization recommendations available" }
    ∧ (lambda_handler env).2.countP isInferenceCall = 0
    ∧ (lambda_handler env).2.countP isS3PutCall = 0
    ∧ (lambda_handler env).2.countP isEmailSendCall = 0 := by
  have hb : (summaries.isEmpty || (fetchedFindings env ids).isEmpty) = true := by
    rcases h3 with h | h <;> simp [h]
  have htr : lambda_handler env
      = ({ statusCode := 200, body := "No cost optimization recommendations available" },
         Effect.listSummariesCall :: Effect.listRecommendationsCall ::
           ids.map Effect.getRecommendationCall) := by
    simp [lambda_handler, h1, h2, hb]
  rw [htr]
  exact ⟨rfl, countP_fetchTrace _ ids rfl rfl (fun _ => rfl),
    countP_fetchTrace _ ids rfl rfl (fun _ => rfl),
    countP_fetchTrace _ ids rfl rfl (fun _ => rfl)⟩

/-- Witness for C4: summaries non-empty but the only detail fetch fails, so
findings is empty and the short-circuit is taken. -/
theorem c4_empty_short_circuit_witness :
    envC4.listSummaries = Except.ok [oneSummary]
    ∧ envC4.listRecommendations = Except.ok ["r1"]
    ∧ fetchedFindings envC4 ["r1"] = []
    ∧ (lambda_handler envC4).1
        = { statusCode := 200, body := "No cost optimization recommendations available" } := by
  refine ⟨rfl, rfl, rfl, ?_⟩
  exact (c4_empty_short_circuit envC4 [oneSummary] ["r1"] rfl rfl (Or.inr rfl)).1

/-- C5: the first failure of pagination, inference, storage write or email
send makes the handler return 500 with a body carrying the error text, and
no call is retried (each service effect occurs at most once in the trace). -/
theorem c5_fatal_500 (env : Env) (e : String) (h : FailsWith env e) :
    (lambda_handler env).1 = errorResult e
    ∧ (lambda_handler env).2.countP isInferenceCall ≤ 1
    ∧ (lambda_handler env).2.countP isS3PutCall ≤ 1
    ∧ (lambda_handler env).2.countP isEmailSendCall ≤ 1 := by
  have hnr := handler_noRetry env
  refine ⟨?_, hnr.1, hnr.2.1, hnr.2.2⟩
  rcases h with h1 | ⟨ss, hss, h2⟩ | ⟨ss, ids, hss, hids, hne1, hne2, hrest⟩
  · simp [lambda_handler, h1]
  · simp [lambda_handler, hss, h2]
  · have hb : (ss.isEmpty || (fetchedFindings env ids).isEmpty) = false := by
      rw [hne1, hne2]
      rfl
    rcases hrest with h4 | ⟨t, h4, h5rest⟩
    · simp [lambda_handler, hss, hids, hb, h4]
    · rcases h5rest with h5 | ⟨h5, h6⟩
      · simp [lambda_handler, hss, hids, hb, h4, h5]
      · simp [lambda_handler, hss, hids, hb, h4, h5, h6]

/-- Witness for C5: an inference failure yields exactly the 500 result. -/
theorem c5_fatal_500_witness :
    FailsWith envC5 "bedrock down"
    ∧ (lambda_handler envC5).1 = errorResult "bedrock down" := by
  have h : FailsWith envC5 "bedrock down" := by
    exact Or.inr (Or.inr ⟨[oneSummary], ["r1"], rfl, rfl, rfl, rfl, Or.inl rfl⟩)
  exact ⟨h, (c5_fatal_500 envC5 "bedrock down" h).1⟩

/-- C6: a failing detail fetch for one identifier leaves that identifier out
of the findings, keeps every successfully fetched detail, and does not
abort the run: with every other service succeeding the handler still
returns 200. -/
theorem c6_detail_skip (env : Env) (ids : List String) (idBad : String) (e : String)
    (hwf : WFEnv env) (hids : env.listRecommendations = .ok ids)
    (hmem : idBad ∈ ids) (hbad : env.getRecommendation idBad = .error e) :
    (∀ f ∈ fetchedFindings env ids, findingGet f "recommendationId" ≠ some idBad)
    ∧ (∀ id d, id ∈ ids → env.getRecommendation id = .ok d →
        d ∈ fetchedFindings env ids)
    ∧ (∀ (ss : List Summary) (t : String),
        env.listSummaries = .ok ss → ss.isEmpty = false →
        (fetchedFindings env ids).isEmpty = false →
        env.invokeModel = .ok t → env.s3PutObject = .ok () → env.sendRawEmail = .ok () →
        (lambda_handler env).1.statusCode = 200) := by
  refine ⟨?_, ?_, ?_⟩
  · intro f hf hcontra
    rcases List.mem_filterMap.mp hf with ⟨id, hid, hok⟩
    have hok' : env.getRecommendation id = .ok f := by
      cases hE : env.getRecommendation id with
      | error err =>
          rw [hE] at hok
          simp [Except.toOption] at hok
      | ok d =>
          rw [hE] at hok
          simp only [Except.toOption, Option.some.injEq] at hok
          rw [hok]
    have hrid := hwf id f hok'
    rw [hrid] at hcontra
    have hid2 : id = idBad := Option.some.inj hcontra
    rw [hid2, hbad] at hok'
    exact Except.noConfusion hok'
  · intro id d hid hok
    exact List.mem_filterMap.mpr ⟨id, hid, by rw [hok]; rfl⟩
  · intro ss t hss hne1 hne2 h4 h5 h6
    have hb : (ss.isEmpty || (fetchedFindings env ids).isEmpty) = false := by
      rw [hne1, hne2]
      rfl
    simp [lambda_handler, hss, hids, hb, h4, h5, h6]

/-- Witness for C6: the detail fetch fails for `r2` only; `r2` is absent
from the findings while the run's other identifiers are kept. -/
theorem c6_detail_skip_witness :
    WFEnv envC6
    ∧ envC6.listRecommendations = Except.ok ["r1", "r2", "r3"]
    ∧ "r2" ∈ (["r1", "r2", "r3"] : List String)
    ∧ envC6.getRecommendation "r2" = Except.error "boom"
    ∧ (∀ f ∈ fetchedFindings envC6 ["r1", "r2", "r3"],
        findingGet f "recommendationId" ≠ some "r2") := by
  have hwf : WFEnv envC6 := by
    intro id d hd
    by_cases hid : id = "r2"
    · rw [hid] at hd
      exact absurd hd (by simp [envC6])
    · have hrec : envC6.getRecommendation id = .ok [("recommendationId", id)] := by
        simp [envC6, hid]
      rw [hrec] at hd
      have : [("recommendationId", id)] = d := Except.ok.inj hd
      rw [← this]
      simp [findingGet]
  have hbad : envC6.getRecommendation "r2" = Except.error "boom" := by simp [envC6]
  exact ⟨hwf, rfl, by simp, hbad,
    (c6_detail_skip envC6 ["r1", "r2", "r3"] "r2" "boom" hwf rfl (by simp) hbad).1⟩

end AwsCostHub
